import Mathlib

/-!
# Verification of the SemaDB shard engine boundary contract

The repository exposes a Python ctypes wrapper (`internal/shardpy/example.py`)
around a compiled shard engine offering three operations: `initShard`, `fit`
and `query`.  The engine itself ships as a binary, so its behaviour is
modelled here from the design specification; the wrapper's buffer
construction is embedded directly from the Python source.

Conventions: vector components are rationals (ideal real arithmetic in place
of float32), flat buffers are lists, and each stateful operation returns the
new state paired with an optional error.
-/

namespace Shardpy

/-- Modelled from the spec: the caller-error taxonomy of §7 — `InvalidArgument`,
`ShapeMismatch`, `NotInitialized`, `EmptyIndex`. -/
inductive Err where
  | invalidArgument
  | shapeMismatch
  | notInitialized
  | emptyIndex
deriving DecidableEq, Repr

/-- Modelled from the spec: the closed set of recognized metrics.  §4.4 requires
at minimum Euclidean distance; only that one is given a formula, so the model
recognizes exactly the name "euclidean". -/
inductive Metric where
  | euclidean
deriving DecidableEq, Repr

/-- Modelled from the spec: resolution of a metric name string to a `Metric`
(§4.4, resolved once at `initShard` time). -/
def metricOfString : String → Option Metric
  | "euclidean" => some Metric.euclidean
  | _ => none

/-- Modelled from the spec: a shard (§3) holds an immutable dimension, a metric
kind, a vector count and a dense store mapping identifier `i` to the
components at flat positions `i*dimension ..< (i+1)*dimension`. -/
structure Shard where
  dimension : Nat
  metric : Metric
  count : Nat
  store : List ℚ
deriving DecidableEq, Repr

/-- Modelled from the spec: the process-wide Shard Registry (§4.1) — named
shard entries plus the most recently initialized (active) name. -/
structure Engine where
  shards : List (String × Shard)
  active : Option String
deriving DecidableEq, Repr

/-- Modelled from the spec: the registry is initialized empty at startup. -/
def emptyEngine : Engine := ⟨[], none⟩

/-- Look a shard up by name in the registry's entry list. -/
def findShard (name : String) : List (String × Shard) → Option Shard
  | [] => none
  | (n, t) :: rest => if n = name then some t else findShard name rest

/-- Replace the entry under `name`, or append a fresh one if absent. -/
def setShard (name : String) (s : Shard) : List (String × Shard) → List (String × Shard)
  | [] => [(name, s)]
  | (n, t) :: rest => if n = name then (name, s) :: rest else (n, t) :: setShard name s rest

/-- Modelled from the spec: `initShard(name, metric, dimension)` (§4.1).
Fails with `InvalidArgument` when `dimension <= 0` or the metric name is not
recognized; otherwise creates or replaces the entry under `name` with an
empty Vector Store and makes it the active shard. -/
def initShard (e : Engine) (name metricName : String) (dimension : Int) :
    Engine × Option Err :=
  if dimension ≤ 0 then (e, some Err.invalidArgument)
  else
    match metricOfString metricName with
    | none => (e, some Err.invalidArgument)
    | some m =>
        ({ shards := setShard name ⟨dimension.toNat, m, 0, []⟩ e.shards,
           active := some name }, none)

/-- The shard that positional `fit`/`query` calls resolve against (§4.1). -/
def activeShard (e : Engine) : Option Shard :=
  match e.active with
  | none => none
  | some n => findShard n e.shards

/-- Store an updated shard back under the active name. -/
def setActive (e : Engine) (s : Shard) : Engine :=
  match e.active with
  | none => e
  | some n => { e with shards := setShard n s e.shards }

/-- Modelled from the spec: `fit(X)` (§4.2).  The flat buffer length must be a
positive multiple of the active shard's dimension; on success the Vector
Store is atomically replaced and identifiers `0..count-1` are assigned in
input order. -/
def fit (e : Engine) (X : List ℚ) : Engine × Option Err :=
  match activeShard e with
  | none => (e, some Err.notInitialized)
  | some s =>
      if X.length = 0 ∨ X.length % s.dimension ≠ 0 then (e, some Err.shapeMismatch)
      else (setActive e { s with count := X.length / s.dimension, store := X }, none)

/-- Modelled from the spec: the sum of squared component differences, computed
component-wise along two flat vectors — the radicand of the Euclidean metric
of §4.4.  Ordering by it coincides with ordering by Euclidean distance. -/
def sumSqDiff : List ℚ → List ℚ → ℚ
  | a :: as, b :: bs => (a - b) * (a - b) + sumSqDiff as bs
  | _, _ => 0

/-- The stored vector with identifier `i`: `dimension` components starting at
flat position `i * dimension`. -/
def Shard.vec (s : Shard) (i : Nat) : List ℚ :=
  (s.store.drop (i * s.dimension)).take s.dimension

/-- Squared Euclidean distance from the probe to stored vector `i`. -/
def distSq (s : Shard) (probe : List ℚ) (i : Nat) : ℚ :=
  sumSqDiff probe (s.vec i)

/-- Modelled from the spec: the query ordering (§3's Query Result) — ascending
distance, ties broken by ascending identifier. -/
def rankLE (p q : ℚ × Nat) : Prop :=
  p.1 < q.1 ∨ (p.1 = q.1 ∧ p.2 ≤ q.2)

instance : DecidableRel rankLE := fun p q =>
  inferInstanceAs (Decidable (p.1 < q.1 ∨ (p.1 = q.1 ∧ p.2 ≤ q.2)))

instance : IsTotal (ℚ × Nat) rankLE :=
  ⟨fun p q => by
    rcases lt_trichotomy p.1 q.1 with h | h | h
    · exact Or.inl (Or.inl h)
    · rcases Nat.le_total p.2 q.2 with h2 | h2
      · exact Or.inl (Or.inr ⟨h, h2⟩)
      · exact Or.inr (Or.inr ⟨h.symm, h2⟩)
    · exact Or.inr (Or.inl h)⟩

instance : IsTrans (ℚ × Nat) rankLE :=
  ⟨fun p q r hpq hqr => by
    rcases hpq with h1 | ⟨he1, hn1⟩
    · rcases hqr with h2 | ⟨he2, _⟩
      · exact Or.inl (h1.trans h2)
      · exact Or.inl (he2 ▸ h1)
    · rcases hqr with h2 | ⟨he2, hn2⟩
      · exact Or.inl (he1 ▸ h2)
      · exact Or.inr ⟨he1.trans he2, hn1.trans hn2⟩⟩

/-- Each stored identifier paired with its squared distance to the probe. -/
def scored (s : Shard) (probe : List ℚ) : List (ℚ × Nat) :=
  (List.range s.count).map (fun i => (distSq s probe i, i))

/-- The scored identifiers sorted by ascending distance, ties by ascending
identifier. -/
def ranked (s : Shard) (probe : List ℚ) : List (ℚ × Nat) :=
  List.insertionSort rankLE (scored s probe)

/-- The best `min(k, count)` identifiers, in emission order. -/
def topIds (s : Shard) (probe : List ℚ) (k : Nat) : List Nat :=
  ((ranked s probe).take k).map Prod.snd

/-- Modelled from the spec: `query(x, k, out)` against one shard (§4.3).
Fails with `ShapeMismatch` if the probe length differs from the dimension,
`InvalidArgument` if `k <= 0`, `EmptyIndex` if the store is empty; otherwise
writes the best `min(k, count)` identifiers into the first slots of `out`,
leaving the remaining slots at their prior values. -/
def queryShard (s : Shard) (probe : List ℚ) (k : Int) (out : List Nat) :
    List Nat × Option Err :=
  if probe.length ≠ s.dimension then (out, some Err.shapeMismatch)
  else if k ≤ 0 then (out, some Err.invalidArgument)
  else if s.count = 0 then (out, some Err.emptyIndex)
  else (topIds s probe k.toNat ++ out.drop (min k.toNat s.count), none)

/-- Modelled from the spec: `query` resolved against the active shard,
failing with `NotInitialized` when none is active (§4.3, §7). -/
def query (e : Engine) (probe : List ℚ) (k : Int) (out : List Nat) :
    List Nat × Option Err :=
  match activeShard e with
  | none => (out, some Err.notInitialized)
  | some s => queryShard s probe k out

/-- One boundary call, for reasoning about reachable registry states. -/
inductive Op where
  | initOp (name metricName : String) (dimension : Int)
  | fitOp (X : List ℚ)
  | queryOp (probe : List ℚ) (k : Int) (out : List Nat)

/-- The registry state after one boundary call (`query` never mutates it). -/
def step (e : Engine) : Op → Engine
  | Op.initOp n m d => (initShard e n m d).1
  | Op.fitOp X => (fit e X).1
  | Op.queryOp _ _ _ => e

/-- The registry state after a sequence of boundary calls. -/
def run (e : Engine) (ops : List Op) : Engine := ops.foldl step e

/-- The Vector Store invariant of §3: `len(store) == count * dimension`. -/
def WFShard (s : Shard) : Prop := s.store.length = s.count * s.dimension

example :
    queryShard ⟨1, Metric.euclidean, 3, [5, 2, 5]⟩ [5] 3 [9, 9, 9] =
      ([0, 2, 1], none) := by
  norm_num [queryShard, topIds, ranked, scored, distSq, Shard.vec, sumSqDiff,
    List.insertionSort, List.orderedInsert, rankLE, List.range_succ, Int.toNat]

example :
    queryShard ⟨2, Metric.euclidean, 3, [0, 0, 10, 10, 1, 1]⟩ [0, 0] 2 [9, 9] =
      ([0, 2], none) := by
  norm_num [queryShard, topIds, ranked, scored, distSq, Shard.vec, sumSqDiff,
    List.insertionSort, List.orderedInsert, rankLE, List.range_succ, Int.toNat]

/-! ### Properties of the squared-distance computation -/

theorem sumSqDiff_nonneg (a b : List ℚ) : 0 ≤ sumSqDiff a b := by
  induction a generalizing b with
  | nil => simp [sumSqDiff]
  | cons x as ih =>
      cases b with
      | nil => simp [sumSqDiff]
      | cons y bs =>
          have h1 : 0 ≤ (x - y) * (x - y) := mul_self_nonneg _
          have h2 : 0 ≤ sumSqDiff as bs := ih bs
          simpa [sumSqDiff] using add_nonneg h1 h2

theorem sumSqDiff_self (a : List ℚ) : sumSqDiff a a = 0 := by
  induction a with
  | nil => simp [sumSqDiff]
  | cons x as ih => simp [sumSqDiff, ih]

theorem sumSqDiff_eq_zero (a b : List ℚ) (hlen : a.length = b.length)
    (h : sumSqDiff a b = 0) : a = b := by
  induction a generalizing b with
  | nil =>
      cases b with
      | nil => rfl
      | cons y bs => simp at hlen
  | cons x as ih =>
      cases b with
      | nil => simp at hlen
      | cons y bs =>
          have h1 : 0 ≤ (x - y) * (x - y) := mul_self_nonneg _
          have h2 : 0 ≤ sumSqDiff as bs := sumSqDiff_nonneg as bs
          have hsum : (x - y) * (x - y) + sumSqDiff as bs = 0 := by
            simpa [sumSqDiff] using h
          have hparts := (add_eq_zero_iff_of_nonneg h1 h2).1 hsum
          have hx : x = y := by
            have := mul_self_eq_zero.1 hparts.1
            linarith [this]
          have hrest : as = bs := ih bs (by simpa using hlen) hparts.2
          simp [hx, hrest]

theorem distSq_nonneg (s : Shard) (probe : List ℚ) (i : Nat) :
    0 ≤ distSq s probe i := sumSqDiff_nonneg _ _

/-! ### Properties of the scored and ranked lists -/

theorem mem_scored {s : Shard} {probe : List ℚ} {p : ℚ × Nat}
    (h : p ∈ scored s probe) : p.2 < s.count ∧ p = (distSq s probe p.2, p.2) := by
  rcases List.mem_map.1 h with ⟨i, hi, rfl⟩
  exact ⟨List.mem_range.1 hi, rfl⟩

theorem scored_mem_self (s : Shard) (probe : List ℚ) {i : Nat} (hi : i < s.count) :
    (distSq s probe i, i) ∈ scored s probe :=
  List.mem_map.2 ⟨i, List.mem_range.2 hi, rfl⟩

theorem length_scored (s : Shard) (probe : List ℚ) :
    (scored s probe).length = s.count := by
  simp [scored]

theorem ranked_perm (s : Shard) (probe : List ℚ) :
    List.Perm (ranked s probe) (scored s probe) :=
  List.perm_insertionSort rankLE (scored s probe)

theorem ranked_sorted (s : Shard) (probe : List ℚ) :
    List.Sorted rankLE (ranked s probe) :=
  List.sorted_insertionSort rankLE (scored s probe)

theorem length_ranked (s : Shard) (probe : List ℚ) :
    (ranked s probe).length = s.count := by
  rw [(ranked_perm s probe).length_eq, length_scored]

theorem mem_ranked {s : Shard} {probe : List ℚ} {p : ℚ × Nat}
    (h : p ∈ ranked s probe) : p.2 < s.count ∧ p = (distSq s probe p.2, p.2) :=
  mem_scored ((ranked_perm s probe).mem_iff.1 h)

theorem map_snd_ranked_perm (s : Shard) (probe : List ℚ) :
    List.Perm ((ranked s probe).map Prod.snd) (List.range s.count) := by
  have h1 : List.Perm ((ranked s probe).map Prod.snd) ((scored s probe).map Prod.snd) :=
    (ranked_perm s probe).map Prod.snd
  have h2 : (scored s probe).map Prod.snd = List.range s.count := by
    simp [scored, List.map_map, Function.comp_def]
  rw [h2] at h1
  exact h1

theorem nodup_map_snd_ranked (s : Shard) (probe : List ℚ) :
    ((ranked s probe).map Prod.snd).Nodup :=
  (map_snd_ranked_perm s probe).nodup_iff.2 (List.nodup_range _)

theorem length_topIds (s : Shard) (probe : List ℚ) (k : Nat) :
    (topIds s probe k).length = min k s.count := by
  simp [topIds, length_ranked]

theorem mem_topIds {s : Shard} {probe : List ℚ} {k i : Nat}
    (h : i ∈ topIds s probe k) : i < s.count := by
  rcases List.mem_map.1 h with ⟨p, hp, rfl⟩
  exact (mem_ranked (List.mem_of_mem_take hp)).1

/-! ### The ordering contract of a Query Result -/

/-- The ordering the Query Result contract promises: non-decreasing Euclidean
distance to the probe, with equal distances resolved by ascending
identifier. -/
def distOrder (s : Shard) (probe : List ℚ) (a b : Nat) : Prop :=
  Real.sqrt ((distSq s probe a : ℝ)) ≤ Real.sqrt ((distSq s probe b : ℝ)) ∧
    (Real.sqrt ((distSq s probe a : ℝ)) = Real.sqrt ((distSq s probe b : ℝ)) → a < b)

theorem queryShard_ok {s : Shard} {probe : List ℚ} {k : Int} {out res : List Nat}
    (h : queryShard s probe k out = (res, none)) :
    probe.length = s.dimension ∧ 0 < k ∧ s.count ≠ 0 ∧
      res = topIds s probe k.toNat ++ out.drop (min k.toNat s.count) := by
  unfold queryShard at h
  by_cases h1 : probe.length ≠ s.dimension
  · simp [h1] at h
  · by_cases h2 : k ≤ 0
    · simp [h1, h2] at h
    · by_cases h3 : s.count = 0
      · simp [h1, h2, h3] at h
      · simp only [h1, h2, h3, if_false, if_neg, not_false_iff] at h
        exact ⟨not_ne_iff.1 h1, lt_of_not_le h2, h3, (congrArg Prod.fst h).symm⟩

theorem pairwise_distOrder_topIds (s : Shard) (probe : List ℚ) (k : Nat) :
    List.Pairwise (distOrder s probe) (topIds s probe k) := by
  have hsorted : List.Pairwise rankLE ((ranked s probe).take k) :=
    List.Pairwise.sublist (List.take_sublist k _) (ranked_sorted s probe)
  have hnd : (((ranked s probe).take k).map Prod.snd).Nodup := by
    rw [List.map_take]
    exact List.Nodup.sublist (List.take_sublist k _) (nodup_map_snd_ranked s probe)
  have hne : List.Pairwise (fun p q : ℚ × Nat => p.2 ≠ q.2) ((ranked s probe).take k) :=
    (List.pairwise_map).1 hnd
  have hboth := hsorted.and hne
  have himp : List.Pairwise (fun p q : ℚ × Nat => distOrder s probe p.2 q.2)
      ((ranked s probe).take k) := by
    refine hboth.imp_of_mem ?_
    intro p q hp hq hpq
    obtain ⟨hrank, hsne⟩ := hpq
    have hp' := mem_ranked (List.mem_of_mem_take hp)
    have hq' := mem_ranked (List.mem_of_mem_take hq)
    have hp1 : p.1 = distSq s probe p.2 := by rw [hp'.2]
    have hq1 : q.1 = distSq s probe q.2 := by rw [hq'.2]
    have hcast_nonneg_p : (0 : ℝ) ≤ (distSq s probe p.2 : ℝ) := by
      exact_mod_cast distSq_nonneg s probe p.2
    have hcast_nonneg_q : (0 : ℝ) ≤ (distSq s probe q.2 : ℝ) := by
      exact_mod_cast distSq_nonneg s probe q.2
    rcases hrank with hlt | ⟨heq, hle⟩
    · rw [hp1, hq1] at hlt
      constructor
      · exact Real.sqrt_le_sqrt (by exact_mod_cast hlt.le)
      · intro hsq
        have : (distSq s probe p.2 : ℝ) = (distSq s probe q.2 : ℝ) :=
          (Real.sqrt_inj hcast_nonneg_p hcast_nonneg_q).1 hsq
        have : distSq s probe p.2 = distSq s probe q.2 := by exact_mod_cast this
        exact absurd this (ne_of_lt hlt)
    · rw [hp1, hq1] at heq
      constructor
      · rw [heq]
      · intro _
        exact lt_of_le_of_ne hle hsne
  simpa [topIds] using (List.pairwise_map).2 himp

/-- C1: for every shard state and every query that succeeds, the identifiers
written into the result are sorted by non-decreasing Euclidean distance to
the probe, and any two with equal distance appear in ascending identifier
order. -/
theorem query_sorted_by_distance (s : Shard) (probe : List ℚ) (k : Int)
    (out res : List Nat) (h : queryShard s probe k out = (res, none)) :
    List.Pairwise (distOrder s probe) (res.take (min k.toNat s.count)) := by
  obtain ⟨-, -, -, hres⟩ := queryShard_ok h
  have hlen : (topIds s probe k.toNat).length = min k.toNat s.count :=
    length_topIds s probe k.toNat
  rw [hres, List.take_left' hlen]
  exact pairwise_distOrder_topIds s probe k.toNat

/-- Witness for C1 at a concrete query containing both a distance tie and a
strict distance gap. -/
theorem query_sorted_by_distance_witness :
    List.Pairwise (distOrder ⟨1, Metric.euclidean, 3, [5, 2, 5]⟩ [5])
      (([0, 2, 1] : List Nat).take (min (3 : Int).toNat 3)) :=
  query_sorted_by_distance ⟨1, Metric.euclidean, 3, [5, 2, 5]⟩ [5] 3 [9, 9, 9] [0, 2, 1]
    (by norm_num [queryShard, topIds, ranked, scored, distSq, Shard.vec, sumSqDiff,
      List.insertionSort, List.orderedInsert, rankLE, List.range_succ, Int.toNat])

/-! ### Truncation of over-long queries (C2) -/

/-- C2 counterexample: against a shard holding zero vectors, a query with
`k = 3 > 0 = count` and a valid probe fails with `EmptyIndex` (§7) instead
of succeeding, so the claim is false at `count = 0`. -/
theorem query_truncation_cex :
    (0 : Nat) < 3 ∧
      (queryShard ⟨1, Metric.euclidean, 0, []⟩ [2] 3 [7, 7, 7]).2 = some Err.emptyIndex := by
  constructor
  · decide
  · norm_num [queryShard]

/-- C2 (amended: the shard must hold at least one vector, since §7 makes a
query against an empty Vector Store fail with `EmptyIndex`): when
`0 < count < k`, query succeeds, writes exactly `count` identifiers — all
stored identifiers, ordered by distance — into the first `count` slots of
`out`, and leaves every later slot at its prior value. -/
theorem query_truncates (s : Shard) (probe : List ℚ) (k : Int) (out : List Nat)
    (hp : probe.length = s.dimension) (hc : 0 < s.count)
    (hk : (s.count : Int) < k) (hout : s.count ≤ out.length) :
    ∃ res, queryShard s probe k out = (res, none) ∧
      List.Perm (res.take s.count) (List.range s.count) ∧
      List.Pairwise (distOrder s probe) (res.take s.count) ∧
      res.drop s.count = out.drop s.count ∧
      res.length = out.length := by
  have hk' : s.count < k.toNat := by omega
  have hknot : ¬ k ≤ 0 := by omega
  have hc0 : s.count ≠ 0 := hc.ne'
  have hmin : min k.toNat s.count = s.count := Nat.min_eq_right hk'.le
  have htop : topIds s probe k.toNat = (ranked s probe).map Prod.snd := by
    unfold topIds
    rw [List.take_of_length_le (by rw [length_ranked]; exact hk'.le)]
  have htoplen : (topIds s probe k.toNat).length = s.count := by
    rw [length_topIds]; exact hmin
  refine ⟨topIds s probe k.toNat ++ out.drop (min k.toNat s.count), ?_, ?_, ?_, ?_, ?_⟩
  · simp [queryShard, hp, hknot, hc0]
  · rw [hmin, List.take_left' htoplen, htop]
    exact map_snd_ranked_perm s probe
  · rw [hmin, List.take_left' htoplen]
    exact pairwise_distOrder_topIds s probe k.toNat
  · rw [hmin, List.drop_left' htoplen]
  · rw [List.length_append, List.length_drop, htoplen, hmin]
    omega

/-- Witness for C2 at a shard of two vectors queried with `k = 5`, including
a distance tie between the two stored vectors. -/
theorem query_truncates_witness :
    ∃ res, queryShard ⟨1, Metric.euclidean, 2, [4, 6]⟩ [5] 5 [9, 9, 9, 9, 9] = (res, none) ∧
      List.Perm (res.take 2) (List.range 2) ∧
      List.Pairwise (distOrder ⟨1, Metric.euclidean, 2, [4, 6]⟩ [5]) (res.take 2) ∧
      res.drop 2 = ([9, 9, 9, 9, 9] : List Nat).drop 2 ∧
      res.length = ([9, 9, 9, 9, 9] : List Nat).length :=
  query_truncates ⟨1, Metric.euclidean, 2, [4, 6]⟩ [5] 5 [9, 9, 9, 9, 9]
    (by norm_num) (by norm_num) (by norm_num) (by norm_num)

/-! ### Self-match queries (C3) -/

theorem vec_length {s : Shard} (hwf : WFShard s) {i : Nat} (hi : i < s.count) :
    (s.vec i).length = s.dimension := by
  have hwf' : s.store.length = s.count * s.dimension := hwf
  have h1 : (i + 1) * s.dimension ≤ s.count * s.dimension :=
    Nat.mul_le_mul_right s.dimension hi
  rw [Nat.succ_mul] at h1
  simp only [Shard.vec, List.length_take, List.length_drop, hwf']
  omega

theorem rankLE_refl (p : ℚ × Nat) : rankLE p p := Or.inr ⟨rfl, le_refl _⟩

theorem ranked_head_min {s : Shard} {probe : List ℚ} {p : ℚ × Nat}
    {rest : List (ℚ × Nat)} (h : ranked s probe = p :: rest) :
    ∀ q ∈ ranked s probe, rankLE p q := by
  intro q hq
  rw [h] at hq
  rcases List.mem_cons.1 hq with rfl | hq'
  · exact rankLE_refl q
  · have hs := ranked_sorted s probe
    rw [h] at hs
    exact (List.pairwise_cons.1 hs).1 q hq'

/-- C3 counterexample: a shard of dimension 1 storing the same vector twice.
The probe equals the stored vector with identifier 1, but the ascending
identifier tie-break makes `query(k=1)` return identifier 0, not 1. -/
theorem query_self_match_cex :
    Shard.vec ⟨1, Metric.euclidean, 2, [3, 3]⟩ 1 = [3] ∧
      ((queryShard ⟨1, Metric.euclidean, 2, [3, 3]⟩ [3] 1 [9]).1).take 1 = [0] ∧
      (0 : Nat) ≠ 1 := by
  norm_num [queryShard, topIds, ranked, scored, distSq, Shard.vec, sumSqDiff,
    List.insertionSort, List.orderedInsert, rankLE, List.range_succ, Int.toNat]

/-- C3 (amended: the stored vector must not duplicate a vector stored under a
smaller identifier, since the ascending-identifier tie-break then returns
that smaller identifier): for such an identifier `i`, query with probe equal
to its stored vector and `k = 1` succeeds, returns exactly `i`, and the
distance of `i` to the probe is 0 under the euclidean metric. -/
theorem query_self_match (s : Shard) (i : Nat) (out : List Nat)
    (hwf : WFShard s) (hi : i < s.count)
    (hdup : ∀ j, j < i → s.vec j ≠ s.vec i) :
    ((queryShard s (s.vec i) 1 out).1).take 1 = [i] ∧
      (queryShard s (s.vec i) 1 out).2 = none ∧
      Real.sqrt ((distSq s (s.vec i) i : ℝ)) = 0 := by
  have hc0 : s.count ≠ 0 := by omega
  have hp : (s.vec i).length = s.dimension := vec_length hwf hi
  have hzero : distSq s (s.vec i) i = 0 := sumSqDiff_self _
  have hmem : ((0 : ℚ), i) ∈ ranked s (s.vec i) := by
    have hsc := scored_mem_self s (s.vec i) hi
    rw [hzero] at hsc
    exact (ranked_perm s (s.vec i)).mem_iff.2 hsc
  have hlen : (ranked s (s.vec i)).length = s.count := length_ranked s (s.vec i)
  cases hr : ranked s (s.vec i) with
  | nil =>
      rw [hr] at hlen
      simp at hlen
      omega
  | cons p rest =>
      have hpmem : p ∈ ranked s (s.vec i) := by
        rw [hr]; exact List.mem_cons_self p rest
      have hplt := (mem_ranked hpmem).1
      have hpshape := (mem_ranked hpmem).2
      have hp1 : p.1 = distSq s (s.vec i) p.2 := by rw [hpshape]
      have hrle : rankLE p ((0 : ℚ), i) := ranked_head_min hr _ hmem
      have hp2 : p.2 = i := by
        rcases hrle with hlt | ⟨heq, hle⟩
        · exfalso
          rw [hp1] at hlt
          exact absurd hlt (not_lt.2 (distSq_nonneg s (s.vec i) p.2))
        · rcases Nat.lt_or_ge p.2 i with hji | hgi
          · exfalso
            have hdz : distSq s (s.vec i) p.2 = 0 := by rw [← hp1, heq]
            have hveq : s.vec i = s.vec p.2 :=
              sumSqDiff_eq_zero _ _ (by rw [hp, vec_length hwf hplt]) hdz
            exact hdup p.2 hji hveq.symm
          · exact le_antisymm hle hgi
      have htop : topIds s (s.vec i) 1 = [i] := by
        unfold topIds
        rw [hr]
        simp [hp2]
      have hq : queryShard s (s.vec i) 1 out =
          (topIds s (s.vec i) 1 ++ out.drop (min 1 s.count), none) := by
        norm_num [queryShard, hp, hc0, Int.toNat]
      refine ⟨?_, ?_, ?_⟩
      · rw [hq]
        have h1 : (topIds s (s.vec i) 1).length = 1 := by
          rw [length_topIds]; omega
        rw [List.take_left' h1, htop]
      · rw [hq]
      · rw [hzero]; norm_num

/-- Witness for C3 at a two-vector shard whose second vector is unique. -/
theorem query_self_match_witness :
    ((queryShard ⟨1, Metric.euclidean, 2, [1, 5]⟩
        (Shard.vec ⟨1, Metric.euclidean, 2, [1, 5]⟩ 1) 1 [9]).1).take 1 = [1] ∧
      (queryShard ⟨1, Metric.euclidean, 2, [1, 5]⟩
        (Shard.vec ⟨1, Metric.euclidean, 2, [1, 5]⟩ 1) 1 [9]).2 = none ∧
      Real.sqrt ((distSq ⟨1, Metric.euclidean, 2, [1, 5]⟩
        (Shard.vec ⟨1, Metric.euclidean, 2, [1, 5]⟩ 1) 1 : ℝ)) = 0 :=
  query_self_match ⟨1, Metric.euclidean, 2, [1, 5]⟩ 1 [9]
    (by norm_num [WFShard]) (by norm_num)
    (by
      intro j hj
      interval_cases j
      norm_num [Shard.vec])

/-! ### The Shard Registry (C4, C5) -/

theorem findShard_setShard_same (name : String) (s : Shard)
    (l : List (String × Shard)) :
    findShard name (setShard name s l) = some s := by
  induction l with
  | nil => simp [setShard, findShard]
  | cons p rest ih =>
      obtain ⟨n, t⟩ := p
      by_cases h : n = name
      · simp [setShard, findShard, h]
      · simp [setShard, findShard, h, ih]

theorem findShard_setShard_ne {name n' : String} (h : n' ≠ name) (s : Shard)
    (l : List (String × Shard)) :
    findShard n' (setShard name s l) = findShard n' l := by
  induction l with
  | nil => simp [setShard, findShard, Ne.symm h]
  | cons p rest ih =>
      obtain ⟨n, t⟩ := p
      by_cases hn : n = name
      · subst hn
        simp [setShard, findShard, Ne.symm h]
      · simp [setShard, findShard, hn, ih]

/-- C4: `fit` fails with `ShapeMismatch` whenever the input buffer length is
`N*d + r` with `r` in `[1, d-1]` for the active shard's dimension `d`
(leaving the registry unchanged), and fails with `NotInitialized` when no
shard is active. -/
theorem fit_shape_errors (e : Engine) (X : List ℚ) :
    (∀ s N r, activeShard e = some s → X.length = N * s.dimension + r →
        1 ≤ r → r < s.dimension → fit e X = (e, some Err.shapeMismatch)) ∧
    (activeShard e = none → fit e X = (e, some Err.notInitialized)) := by
  constructor
  · intro s N r hs hlen hr1 hr2
    have hmod : X.length % s.dimension = r := by
      rw [hlen, Nat.mul_comm, Nat.mul_add_mod, Nat.mod_eq_of_lt hr2]
    have hcond : X.length = 0 ∨ X.length % s.dimension ≠ 0 := Or.inr (by omega)
    simp only [fit, hs]
    rw [if_pos hcond]
  · intro h
    simp only [fit, h]

/-- Witness for C4: a dimension-2 shard rejects a length-3 buffer with
`ShapeMismatch`, and `fit` before any `initShard` gives `NotInitialized`. -/
theorem fit_shape_errors_witness :
    fit (initShard emptyEngine "a" "euclidean" 2).1 [1, 2, 3] =
      ((initShard emptyEngine "a" "euclidean" 2).1, some Err.shapeMismatch) ∧
    fit emptyEngine [1, 2, 3] = (emptyEngine, some Err.notInitialized) :=
  ⟨(fit_shape_errors (initShard emptyEngine "a" "euclidean" 2).1 [1, 2, 3]).1
      ⟨2, Metric.euclidean, 0, []⟩ 1 1 rfl rfl (by norm_num) (by norm_num),
    (fit_shape_errors emptyEngine [1, 2, 3]).2 rfl⟩

/-- C5: `initShard` fails with `InvalidArgument` exactly when the dimension is
nonpositive or the metric name is unrecognized; otherwise it succeeds,
installs a fresh empty shard under the name (replacing any previous entry,
and hence dropping its Vector Store), and leaves every other name's entry
untouched. -/
theorem initShard_spec (e : Engine) (name metricName : String) (d : Int) :
    ((initShard e name metricName d).2 = some Err.invalidArgument ↔
      d ≤ 0 ∨ metricOfString metricName = none) ∧
    (∀ m, 0 < d → metricOfString metricName = some m →
      (initShard e name metricName d).2 = none ∧
      findShard name (initShard e name metricName d).1.shards =
        some ⟨d.toNat, m, 0, []⟩ ∧
      ∀ n, n ≠ name →
        findShard n (initShard e name metricName d).1.shards =
          findShard n e.shards) := by
  constructor
  · constructor
    · intro h
      by_cases h1 : d ≤ 0
      · exact Or.inl h1
      · right
        cases hm : metricOfString metricName with
        | none => rfl
        | some m =>
            exfalso
            unfold initShard at h
            rw [if_neg h1, hm] at h
            simp at h
    · intro h
      rcases h with h1 | h1
      · simp [initShard, h1]
      · by_cases h2 : d ≤ 0
        · simp [initShard, h2]
        · simp [initShard, h1, h2]
  · intro m hd hm
    have h2 : ¬ d ≤ 0 := not_le.2 hd
    have hsh : (initShard e name metricName d).1.shards =
        setShard name ⟨d.toNat, m, 0, []⟩ e.shards := by
      simp [initShard, h2, hm]
    refine ⟨by simp [initShard, h2, hm], ?_, ?_⟩
    · rw [hsh]
      exact findShard_setShard_same name _ e.shards
    · intro n hn
      rw [hsh]
      exact findShard_setShard_ne hn _ e.shards

/-- Witness for C5: initializing shard "a" with metric "euclidean" and
dimension 3 on the empty registry. -/
theorem initShard_spec_witness :
    (initShard emptyEngine "a" "euclidean" 3).2 = none ∧
    findShard "a" (initShard emptyEngine "a" "euclidean" 3).1.shards =
      some ⟨(3 : Int).toNat, Metric.euclidean, 0, []⟩ ∧
    ∀ n, n ≠ "a" →
      findShard n (initShard emptyEngine "a" "euclidean" 3).1.shards =
        findShard n emptyEngine.shards :=
  (initShard_spec emptyEngine "a" "euclidean" 3).2 Metric.euclidean
    (by norm_num) rfl

/-! ### Reachable-state invariants and full-replace semantics (C6) -/

/-- Every shard entry of the registry satisfies the Vector Store invariant. -/
def EngineWF (e : Engine) : Prop :=
  ∀ name s, findShard name e.shards = some s → WFShard s

theorem engineWF_empty : EngineWF emptyEngine := by
  intro name s h
  simp [emptyEngine, findShard] at h

theorem findShard_setShard_cases {n name : String} {s t : Shard}
    {l : List (String × Shard)}
    (h : findShard n (setShard name t l) = some s) :
    s = t ∨ findShard n l = some s := by
  by_cases hn : n = name
  · subst hn
    rw [findShard_setShard_same] at h
    exact Or.inl (Option.some.inj h).symm
  · rw [findShard_setShard_ne hn] at h
    exact Or.inr h

theorem fit_eq_of_none {e : Engine} (ha : activeShard e = none) (X : List ℚ) :
    fit e X = (e, some Err.notInitialized) := by
  unfold fit
  rw [ha]

theorem fit_eq_of_active {e : Engine} {t : Shard} (ha : activeShard e = some t)
    (X : List ℚ) :
    fit e X =
      if X.length = 0 ∨ X.length % t.dimension ≠ 0 then (e, some Err.shapeMismatch)
      else (setActive e { t with count := X.length / t.dimension, store := X }, none) := by
  unfold fit
  rw [ha]

theorem query_eq_of_none {e : Engine} (ha : activeShard e = none)
    (probe : List ℚ) (k : Int) (out : List Nat) :
    query e probe k out = (out, some Err.notInitialized) := by
  unfold query
  rw [ha]

theorem query_eq_of_active {e : Engine} {t : Shard} (ha : activeShard e = some t)
    (probe : List ℚ) (k : Int) (out : List Nat) :
    query e probe k out = queryShard t probe k out := by
  unfold query
  rw [ha]

theorem engineWF_step (e : Engine) (op : Op) (h : EngineWF e) :
    EngineWF (step e op) := by
  cases op with
  | initOp n m d =>
      intro name s hf
      simp only [step] at hf
      unfold initShard at hf
      by_cases h1 : d ≤ 0
      · rw [if_pos h1] at hf; exact h name s hf
      · rw [if_neg h1] at hf
        cases hm : metricOfString m with
        | none => rw [hm] at hf; exact h name s hf
        | some mm =>
            rw [hm] at hf
            simp only at hf
            rcases findShard_setShard_cases hf with rfl | hf'
            · simp [WFShard]
            · exact h name s hf'
  | fitOp X =>
      intro name s hf
      simp only [step] at hf
      cases ha : activeShard e with
      | none => rw [fit_eq_of_none ha] at hf; exact h name s hf
      | some t =>
          rw [fit_eq_of_active ha] at hf
          by_cases hcond : X.length = 0 ∨ X.length % t.dimension ≠ 0
          · rw [if_pos hcond] at hf; exact h name s hf
          · rw [if_neg hcond] at hf
            push_neg at hcond
            unfold setActive at hf
            cases hact : e.active with
            | none => rw [hact] at hf; exact h name s hf
            | some an =>
                rw [hact] at hf
                simp only at hf
                rcases findShard_setShard_cases hf with rfl | hf'
                · have hdvd := Nat.div_mul_cancel (Nat.dvd_of_mod_eq_zero hcond.2)
                  simpa [WFShard] using hdvd.symm
                · exact h name s hf'
  | queryOp p k out =>
      exact h

theorem engineWF_run (ops : List Op) : ∀ e, EngineWF e → EngineWF (run e ops) := by
  induction ops with
  | nil => intro e h; exact h
  | cons op rest ih => intro e h; exact ih _ (engineWF_step e op h)

theorem fit_ok_active {e e₂ : Engine} {X : List ℚ} (h : fit e X = (e₂, none)) :
    ∃ s, activeShard e = some s ∧
      activeShard e₂ = some { s with count := X.length / s.dimension, store := X } ∧
      X.length ≠ 0 ∧ X.length % s.dimension = 0 := by
  cases ha : activeShard e with
  | none => rw [fit_eq_of_none ha] at h; simp at h
  | some t =>
      rw [fit_eq_of_active ha] at h
      by_cases hcond : X.length = 0 ∨ X.length % t.dimension ≠ 0
      · rw [if_pos hcond] at h; simp at h
      · rw [if_neg hcond] at h
        push_neg at hcond
        refine ⟨t, rfl, ?_, hcond.1, hcond.2⟩
        cases hact : e.active with
        | none =>
            exfalso
            unfold activeShard at ha
            rw [hact] at ha
            simp at ha
        | some an =>
            have hset : setActive e { t with count := X.length / t.dimension, store := X } =
                { e with shards :=
                    setShard an { t with count := X.length / t.dimension, store := X } e.shards } := by
              unfold setActive
              rw [hact]
            injection h with h1 h2
            rw [← h1, hset]
            unfold activeShard
            simp only [hact]
            exact findShard_setShard_same an _ e.shards

/-- C6: every registry state reachable from the empty registry by
`initShard`/`fit`/`query` calls satisfies `len(store) = count * dimension`
for all its shard entries; and after a further successful `fit`, the active
shard's count is the replacement value `len(X) / dimension` and a successful
query on it returns only identifiers below that new count — `fit` is a full
replace, never an append. -/
theorem reachable_wf_and_replace (ops : List Op) :
    (∀ name s, findShard name (run emptyEngine ops).shards = some s → WFShard s) ∧
    (∀ X e₂ s₂ probe k out res,
      fit (run emptyEngine ops) X = (e₂, none) →
      activeShard e₂ = some s₂ →
      queryShard s₂ probe k out = (res, none) →
      s₂.count = X.length / s₂.dimension ∧
      ∀ i ∈ res.take (min k.toNat s₂.count), i < s₂.count) := by
  constructor
  · exact engineWF_run ops emptyEngine engineWF_empty
  · intro X e₂ s₂ probe k out res hfit hact hq
    obtain ⟨s, hsa, hsa₂, hX0, hXmod⟩ := fit_ok_active hfit
    have hs₂ : s₂ = { s with count := X.length / s.dimension, store := X } := by
      rw [hact] at hsa₂
      exact Option.some.inj hsa₂
    constructor
    · rw [hs₂]
    · obtain ⟨-, -, -, hres⟩ := queryShard_ok hq
      intro i hi
      rw [hres, List.take_left' (by rw [length_topIds])] at hi
      exact mem_topIds hi

/-- Witness for C6: initialize shard "a" with dimension 1, fit one vector,
then re-fit two vectors and query; the invariant holds and the query returns
only identifiers below the new count 2. -/
theorem reachable_wf_and_replace_witness :
    WFShard ⟨1, Metric.euclidean, 1, [2]⟩ ∧
    ((⟨1, Metric.euclidean, 2, [3, 4]⟩ : Shard).count =
        ([3, 4] : List ℚ).length / (⟨1, Metric.euclidean, 2, [3, 4]⟩ : Shard).dimension ∧
      ∀ i ∈ ([0, 1, 9, 9, 9] : List Nat).take
          (min (5 : Int).toNat (⟨1, Metric.euclidean, 2, [3, 4]⟩ : Shard).count),
        i < (⟨1, Metric.euclidean, 2, [3, 4]⟩ : Shard).count) :=
  ⟨(reachable_wf_and_replace [Op.initOp "a" "euclidean" 1, Op.fitOp [2]]).1
      "a" ⟨1, Metric.euclidean, 1, [2]⟩ rfl,
    (reachable_wf_and_replace [Op.initOp "a" "euclidean" 1, Op.fitOp [2]]).2
      [3, 4] ⟨[("a", ⟨1, Metric.euclidean, 2, [3, 4]⟩)], some "a"⟩
      ⟨1, Metric.euclidean, 2, [3, 4]⟩ [3] 5 [9, 9, 9, 9, 9] [0, 1, 9, 9, 9]
      rfl rfl
      (by norm_num [queryShard, topIds, ranked, scored, distSq, Shard.vec, sumSqDiff,
        List.insertionSort, List.orderedInsert, rankLE, List.range_succ, Int.toNat])⟩

/-! ### Error atomicity (C7) -/

/-- C7: a `fit` that fails leaves the registry exactly as it was (no partial
ingestion), and a `query` that fails writes nothing into the output buffer
(no partial query result). -/
theorem error_atomicity (e : Engine) (X probe : List ℚ) (k : Int) (out : List Nat) :
    ((fit e X).2 ≠ none → (fit e X).1 = e) ∧
    ((query e probe k out).2 ≠ none → (query e probe k out).1 = out) := by
  constructor
  · intro hne
    cases ha : activeShard e with
    | none => rw [fit_eq_of_none ha]
    | some s =>
        rw [fit_eq_of_active ha] at hne ⊢
        by_cases hcond : X.length = 0 ∨ X.length % s.dimension ≠ 0
        · rw [if_pos hcond]
        · rw [if_neg hcond] at hne
          simp at hne
  · intro hne
    cases ha : activeShard e with
    | none => rw [query_eq_of_none ha]
    | some s =>
        rw [query_eq_of_active ha] at hne ⊢
        unfold queryShard at hne ⊢
        by_cases h1 : probe.length ≠ s.dimension
        · rw [if_pos h1]
        · rw [if_neg h1] at hne ⊢
          by_cases h2 : k ≤ 0
          · rw [if_pos h2]
          · rw [if_neg h2] at hne ⊢
            by_cases h3 : s.count = 0
            · rw [if_pos h3]
            · rw [if_neg h3] at hne
              simp at hne

/-- Witness for C7: before any `initShard`, both `fit` and `query` fail and
leave their targets untouched. -/
theorem error_atomicity_witness :
    (fit emptyEngine [1]).1 = emptyEngine ∧ (query emptyEngine [1] 1 [7]).1 = [7] :=
  ⟨(error_atomicity emptyEngine [1] [1] 1 [7]).1 (by decide),
    (error_atomicity emptyEngine [1] [1] 1 [7]).2 (by decide)⟩

/-! ### The Euclidean metric (C8) -/

/-- Modelled from the spec: the index-wise radicand `sum((a_i - b_i)^2)` of
the Euclidean distance formula in §4.4. -/
def euclidSpecSq (a b : List ℚ) : ℚ :=
  ∑ i ∈ Finset.range a.length, (a.getD i 0 - b.getD i 0) ^ 2

theorem sumSqDiff_eq_spec (a b : List ℚ) (h : a.length = b.length) :
    sumSqDiff a b = euclidSpecSq a b := by
  induction a generalizing b with
  | nil => simp [sumSqDiff, euclidSpecSq]
  | cons x as ih =>
      cases b with
      | nil => simp at h
      | cons y bs =>
          have hlen : as.length = bs.length := by simpa using h
          have hrec := ih bs hlen
          unfold euclidSpecSq at hrec ⊢
          simp only [List.length_cons]
          rw [Finset.sum_range_succ']
          simp only [List.getD_cons_succ, List.getD_cons_zero]
          rw [show sumSqDiff (x :: as) (y :: bs) =
            (x - y) * (x - y) + sumSqDiff as bs from rfl, hrec]
          ring

/-- C8: the euclidean Metric computes `sqrt(sum((a_i - b_i)^2))` on every
pair of equal-length vectors (totality: it is a function defined on all
pairs, and being a pure function it mutates neither input), and it is
reflexive — the distance of any vector to itself is 0. -/
theorem euclidean_metric_spec (a b v : List ℚ) (h : a.length = b.length) :
    Real.sqrt ((sumSqDiff a b : ℝ)) = Real.sqrt ((euclidSpecSq a b : ℝ)) ∧
      sumSqDiff v v = 0 ∧ Real.sqrt ((sumSqDiff v v : ℝ)) = 0 := by
  refine ⟨?_, sumSqDiff_self v, ?_⟩
  · rw [sumSqDiff_eq_spec a b h]
  · rw [sumSqDiff_self v]
    norm_num

/-- Witness for C8 on a concrete pair of length-2 vectors. -/
theorem euclidean_metric_spec_witness :
    Real.sqrt ((sumSqDiff [1, 2] [3, 4] : ℝ)) =
      Real.sqrt ((euclidSpecSq [1, 2] [3, 4] : ℝ)) ∧
      sumSqDiff [5] [5] = 0 ∧ Real.sqrt ((sumSqDiff [5] [5] : ℝ)) = 0 :=
  euclidean_metric_spec [1, 2] [3, 4] [5] (by norm_num)

/-! ### The Python wrapper's buffer construction (C9, C10), embedded from
`internal/shardpy/example.py` -/

/-- The `GoSlice` ctypes structure of the wrapper: the underlying buffer
(standing for the data pointer) plus 64-bit length and capacity fields. -/
structure GoSlice (α : Type) where
  data : List α
  len : Int
  cap : Int

/-- `a.shape[0]` of a one-dimensional numpy array. -/
def shape0 {α : Type} (a : List α) : Nat := a.length

/-- `X.flatten()` of a row-major two-dimensional numpy array. -/
def npFlatten (m : List (List ℚ)) : List ℚ := m.flatten

/-- `np.zeros(k, dtype=np.uint32)`: the wrapper's query output buffer. -/
def npZeros (k : Nat) : List Nat := List.replicate k 0

/-- The wrapper's slice construction
`GoSlice(ctypes.cast(a.ctypes.data, c_void_p), a.shape[0], a.shape[0])`. -/
def mkGoSlice {α : Type} (a : List α) : GoSlice α := ⟨a, shape0 a, shape0 a⟩

/-- The slice the wrapper passes to `fit`: the flattened 10000x128 matrix. -/
def fitSlice (X : List (List ℚ)) : GoSlice ℚ := mkGoSlice (npFlatten X)

/-- The slice the wrapper passes as the probe `x` of `query`. -/
def probeSlice (x : List ℚ) : GoSlice ℚ := mkGoSlice x

/-- The slice the wrapper passes as the `out` buffer of `query`. -/
def outSlice (k : Nat) : GoSlice Nat := mkGoSlice (npZeros k)

/-- C9: each GoSlice the wrapper constructs — the fit buffer holding the
flattened 10000x128 float matrix, the probe of length 128, and the output
buffer for k = 10 — has its `len` field equal to its `cap` field, both equal
to the element count of the underlying numpy array. -/
theorem goslice_len_eq_cap (X : List (List ℚ)) (x : List ℚ)
    (hX : X.length = 10000) (hrow : ∀ r ∈ X, r.length = 128)
    (hx : x.length = 128) :
    ((fitSlice X).len = (fitSlice X).cap ∧
      (fitSlice X).len = ((fitSlice X).data.length : Int) ∧
      (fitSlice X).len = 1280000) ∧
    ((probeSlice x).len = (probeSlice x).cap ∧
      (probeSlice x).len = ((probeSlice x).data.length : Int) ∧
      (probeSlice x).len = 128) ∧
    ((outSlice 10).len = (outSlice 10).cap ∧
      (outSlice 10).len = ((outSlice 10).data.length : Int) ∧
      (outSlice 10).len = 10) := by
  have hflat : (npFlatten X).length = 1280000 := by
    unfold npFlatten
    rw [List.length_flatten]
    have hmap : X.map List.length = List.replicate 10000 128 := by
      rw [List.eq_replicate_iff]
      constructor
      · simp [hX]
      · intro b hb
        rcases List.mem_map.1 hb with ⟨r, hr, rfl⟩
        exact hrow r hr
    rw [hmap, List.sum_const_nat]
  refine ⟨⟨rfl, rfl, ?_⟩, ⟨rfl, rfl, ?_⟩, ⟨rfl, rfl, rfl⟩⟩
  · simp [fitSlice, mkGoSlice, shape0, hflat]
  · simp [probeSlice, mkGoSlice, shape0, hx]

/-- Witness for C9 on a concrete 10000x128 zero matrix and zero probe. -/
theorem goslice_len_eq_cap_witness :
    ((fitSlice (List.replicate 10000 (List.replicate 128 0))).len =
        (fitSlice (List.replicate 10000 (List.replicate 128 0))).cap ∧
      (fitSlice (List.replicate 10000 (List.replicate 128 0))).len =
        ((fitSlice (List.replicate 10000 (List.replicate 128 0))).data.length : Int) ∧
      (fitSlice (List.replicate 10000 (List.replicate 128 0))).len = 1280000) ∧
    ((probeSlice (List.replicate 128 0)).len = (probeSlice (List.replicate 128 0)).cap ∧
      (probeSlice (List.replicate 128 0)).len =
        ((probeSlice (List.replicate 128 0)).data.length : Int) ∧
      (probeSlice (List.replicate 128 0)).len = 128) ∧
    ((outSlice 10).len = (outSlice 10).cap ∧
      (outSlice 10).len = ((outSlice 10).data.length : Int) ∧
      (outSlice 10).len = 10) :=
  goslice_len_eq_cap (List.replicate 10000 (List.replicate 128 0))
    (List.replicate 128 0) (by rw [List.length_replicate])
    (by
      intro r hr
      rw [List.eq_of_mem_replicate hr, List.length_replicate])
    (by rw [List.length_replicate])

theorem npZeros_getD {k i : Nat} (h : i < k) : (npZeros k).getD i 7 = 0 := by
  unfold npZeros
  induction k generalizing i with
  | zero => omega
  | succ n ih =>
      cases i with
      | zero => simp [List.replicate_succ]
      | succ j =>
          rw [List.replicate_succ]
          simp only [List.getD_cons_succ]
          exact ih (by omega)

/-- C10: the wrapper allocates the query output buffer with length exactly
`k` — the minimum the contract allows — and initializes every entry to 0, so
after a truncated query (`0 < count < k`) every slot past the written prefix
still holds 0, while the value 0 also occurs inside the written prefix as
the valid identifier 0: an unwritten slot is indistinguishable from a
returned identifier 0 when the buffer is read back. -/
theorem out_buffer_zero_ambiguity (s : Shard) (k : Nat) (probe : List ℚ)
    (res : List Nat)
    (hq : queryShard s probe (k : Int) (npZeros k) = (res, none))
    (hck : s.count < k) :
    (npZeros k).length = k ∧
    (∀ i, i < k → (npZeros k).getD i 7 = 0) ∧
    res.drop s.count = List.replicate (k - s.count) 0 ∧
    0 ∈ res.take s.count := by
  obtain ⟨hp, hkpos, hc0, hres⟩ := queryShard_ok hq
  have htn : (k : Int).toNat = k := Int.toNat_natCast k
  have hmin : min (k : Int).toNat s.count = s.count := by
    rw [htn]; omega
  have htoplen : (topIds s probe (k : Int).toNat).length = s.count := by
    rw [length_topIds, hmin]
  refine ⟨by simp [npZeros], fun i hi => npZeros_getD hi, ?_, ?_⟩
  · rw [hres, hmin, List.drop_left' htoplen]
    unfold npZeros
    rw [List.drop_replicate]
  · rw [hres, hmin, List.take_left' htoplen]
    have hperm : List.Perm (topIds s probe (k : Int).toNat)
        (List.range s.count) := by
      unfold topIds
      rw [List.take_of_length_le (by rw [length_ranked, htn]; omega)]
      exact map_snd_ranked_perm s probe
    exact hperm.mem_iff.2 (List.mem_range.2 (by omega))

/-- Witness for C10: a one-vector shard queried with the wrapper's `k = 10`
zero-initialized buffer. -/
theorem out_buffer_zero_ambiguity_witness :
    (npZeros 10).length = 10 ∧
    (∀ i, i < 10 → (npZeros 10).getD i 7 = 0) ∧
    ([0, 0, 0, 0, 0, 0, 0, 0, 0, 0] : List Nat).drop 1 = List.replicate (10 - 1) 0 ∧
    0 ∈ ([0, 0, 0, 0, 0, 0, 0, 0, 0, 0] : List Nat).take 1 :=
  out_buffer_zero_ambiguity ⟨1, Metric.euclidean, 1, [4]⟩ 10 [3]
    [0, 0, 0, 0, 0, 0, 0, 0, 0, 0]
    (by
      have hz : npZeros 10 = [0, 0, 0, 0, 0, 0, 0, 0, 0, 0] := rfl
      rw [hz]
      norm_num [queryShard, topIds, ranked, scored, distSq, Shard.vec, sumSqDiff,
        List.insertionSort, List.orderedInsert, rankLE, List.range_succ, Int.toNat])
    (by norm_num)

end Shardpy
